import Mathlib

/-!
Verification development for the histogram package
(src/histogram/histogram.py): a multi-dimensional frequency histogram
over streams of floating-point samples, with incremental fill,
per-cell statistics, sub-range views, and algebra.

Conventions of the embedding:
  * Floating-point sample and edge values are modelled as rationals (ℚ);
    NaN samples are modelled as the `none` case of `Option ℚ`.
  * numpy unsigned 32-bit counters are modelled as ℕ, with `% 2 ^ 32`
    applied exactly where numpy arithmetic wraps.
  * Python exceptions are modelled by `Except PyErr`.
  * numpy arrays produced by basic slicing are views: where aliasing
    matters (`__getitem__`) buffers live in an explicit store and a
    view is a (buffer id, offset, length) descriptor.
-/

/-- One component of a selector tuple handed to `_convert_item` /
`__getitem__`: a Python `int`, a `slice(start, stop, step)` whose three
fields may each be `None`, or the literal `None` ("insert axis" marker). -/
inductive SelComp where
  | int (i : Int)
  | slice (start stop step : Option Int)
  | noneComp
  deriving DecidableEq, Repr

/-- Python exceptions raised by the histogram module, as an error type. -/
inductive PyErr where
  /-- IndexError raised by `_convert_item` for an out-of-bounds component:
      the message interpolates the offending component, the axis, and the
      dim (line 455: "Could not interpret index ... for axis ... with
      dim ..."). -/
  | indexConstraint (value : SelComp) (axis : ℕ) (dim : ℕ)
  /-- TypeError from comparing None with an int (slice stop absent while
      the start is given and non-negative and the step is given, so the
      short-circuited bounds check reaches the stop comparison). -/
  | typeErr
  /-- IndexError from indexing a tuple past its length (selector longer
      than the shape). -/
  | tupleIndex
  /-- ValueError raised by `_is_compatible` on shape mismatch. -/
  | valueErr
  /-- AssertionError from a failed `assert`. -/
  | assertionErr
  /-- IndexError raised by numpy itself for an integer index below
      `-shape[0]`. -/
  | numpyIndex
  deriving DecidableEq, Repr

namespace HistFill

/-!
### Binning engine (C core)

The compiled C routine `histogram_c` bound at lines 14-23 of
src/histogram/histogram.py is not part of the Python source tree, so its
per-sample behaviour is modelled from the spec.
-/

/-- Where a single sample lands. -/
inductive Target where
  | under
  | over
  | bin (i : ℕ)
  deriving DecidableEq, Repr

/-- Modelled from the spec: the C binning routine `histogram_c` is absent
from src/, so per-sample classification follows §4.2 of the spec: a value
below `edges[0]` is underflow, a value at or above `edges[n_bins]` is
overflow, and otherwise the sample falls in the largest bin `i` with
`edges[i] <= v`. -/
def binOf (edges : List ℚ) (v : ℚ) : Target :=
  if v < edges.getD 0 0 then .under
  else if edges.getD (edges.length - 1) 0 ≤ v then .over
  else
    .bin (((List.range (edges.length - 1)).filter
      (fun i => edges.getD i 0 ≤ v)).foldl max 0)

/-- The per-cell mutable state: one count per bin plus the two flow
counters (`data`, `underflow`, `overflow` in the source). -/
structure CellState where
  counts : List ℕ
  under : ℕ
  over : ℕ
  deriving DecidableEq, Repr

/-- Increment position `i` of a list, leaving it unchanged when `i` is out
of range. -/
def incNth : List ℕ → ℕ → List ℕ
  | [], _ => []
  | x :: xs, 0 => (x + 1) :: xs
  | x :: xs, n + 1 => x :: incNth xs n

/-- Modelled from the spec: one sample processed by the C engine. NaN
samples (`none`) are silently skipped. -/
def fillSample (edges : List ℚ) (c : CellState) (s : Option ℚ) : CellState :=
  match s with
  | none => c
  | some v =>
    match binOf edges v with
    | .under => { c with under := c.under + 1 }
    | .over => { c with over := c.over + 1 }
    | .bin i => { c with counts := incNth c.counts i }

/-- Modelled from the spec: one `fill` call delivers a batch of samples to
a cell, accumulating into the existing counters (no reset). -/
def fillBatch (edges : List ℚ) (c : CellState) (batch : List (Option ℚ)) :
    CellState :=
  batch.foldl (fillSample edges) c

/-- A sequence of `fill` calls on one cell, starting from state `c`. -/
def fillCalls (edges : List ℚ) (c : CellState) (calls : List (List (Option ℚ))) :
    CellState :=
  calls.foldl (fillBatch edges) c

/-- The freshly constructed cell: all counters zero
(`Histogram1D.__init__`). -/
def emptyCell (nBins : ℕ) : CellState :=
  { counts := List.replicate nBins 0, under := 0, over := 0 }

/-- Total content of a cell: binned counts plus underflow plus overflow. -/
def CellState.total (c : CellState) : ℕ :=
  c.counts.sum + c.under + c.over

theorem incNth_length (l : List ℕ) (i : ℕ) : (incNth l i).length = l.length := by
  induction l generalizing i with
  | nil => rfl
  | cons x xs ih =>
    cases i with
    | zero => rfl
    | succ n => simp [incNth, ih]

theorem incNth_sum (l : List ℕ) (i : ℕ) (h : i < l.length) :
    (incNth l i).sum = l.sum + 1 := by
  induction l generalizing i with
  | nil => simp at h
  | cons x xs ih =>
    cases i with
    | zero => simp [incNth]; ring
    | succ n =>
      simp only [incNth, List.sum_cons]
      rw [ih n (by simpa using h)]
      ring

/-- When a sample is neither underflow nor overflow, `binOf` returns a bin
index below `n_bins` (needs at least two edges, as the constructor's
`bin_edges.shape[0] - 1 >= 1` grid requires). -/
theorem binOf_bin_lt (edges : List ℚ) (v : ℚ) (hlen : 2 ≤ edges.length)
    (i : ℕ) (h : binOf edges v = .bin i) : i < edges.length - 1 := by
  unfold binOf at h
  split at h
  · exact absurd h (by simp)
  · split at h
    · exact absurd h (by simp)
    · simp only [Target.bin.injEq] at h
      subst h
      have hmem : ∀ j ∈ (List.range (edges.length - 1)).filter
          (fun i => decide (edges.getD i 0 ≤ v)), j < edges.length - 1 := by
        intro j hj
        exact List.mem_range.mp (List.mem_of_mem_filter hj)
      have h0lt : 0 < edges.length - 1 := by omega
      -- the fold over a list of indices all below n_bins stays below n_bins
      have : ∀ (l : List ℕ) (a : ℕ), (∀ j ∈ l, j < edges.length - 1) →
          a < edges.length - 1 → l.foldl max a < edges.length - 1 := by
        intro l
        induction l with
        | nil => intro a _ ha; simpa using ha
        | cons x xs ih =>
          intro a hl ha
          simp only [List.foldl_cons]
          exact ih (max a x) (fun j hj => hl j (List.mem_cons_of_mem _ hj))
            (max_lt ha (hl x (List.mem_cons_self x xs)))
      exact this _ 0 hmem h0lt

/-- A non-NaN sample increments the cell total by exactly one. -/
theorem fillSample_total (edges : List ℚ) (hlen : 2 ≤ edges.length)
    (c : CellState) (hc : c.counts.length = edges.length - 1)
    (v : ℚ) : (fillSample edges c (some v)).total = c.total + 1 := by
  cases hb : binOf edges v with
  | under => simp only [fillSample, hb, CellState.total]; omega
  | over => simp only [fillSample, hb, CellState.total]; omega
  | bin i =>
    simp only [fillSample, hb, CellState.total]
    rw [incNth_sum c.counts i (by rw [hc]; exact binOf_bin_lt edges v hlen i hb)]
    ring

/-- Filling preserves the length of the count array. -/
theorem fillSample_counts_length (edges : List ℚ) (c : CellState)
    (s : Option ℚ) :
    (fillSample edges c s).counts.length = c.counts.length := by
  cases s with
  | none => rfl
  | some v =>
    cases hb : binOf edges v with
    | under => simp only [fillSample, hb]
    | over => simp only [fillSample, hb]
    | bin i => simp only [fillSample, hb]; exact incNth_length _ _

theorem fillBatch_invariant (edges : List ℚ) (hlen : 2 ≤ edges.length)
    (batch : List (Option ℚ)) (hnn : ∀ s ∈ batch, s ≠ none) :
    ∀ c : CellState, c.counts.length = edges.length - 1 →
    (fillBatch edges c batch).total = c.total + batch.length ∧
    (fillBatch edges c batch).counts.length = edges.length - 1 := by
  induction batch with
  | nil => intro c hc; exact ⟨by simp [fillBatch], by simpa [fillBatch] using hc⟩
  | cons s rest ih =>
    intro c hc
    obtain ⟨v, rfl⟩ : ∃ v, s = some v := by
      cases s with
      | none => exact absurd rfl (hnn none (List.mem_cons_self _ _))
      | some v => exact ⟨v, rfl⟩
    have hrest : ∀ t ∈ rest, t ≠ none :=
      fun t ht => hnn t (List.mem_cons_of_mem _ ht)
    have hlen1 : (fillSample edges c (some v)).counts.length = edges.length - 1 := by
      rw [fillSample_counts_length]; exact hc
    have hstep := fillSample_total edges hlen c hc v
    have := (ih hrest) (fillSample edges c (some v)) hlen1
    constructor
    · show (fillBatch edges (fillSample edges c (some v)) rest).total = _
      rw [this.1, hstep]
      simp [List.length_cons]
      ring
    · exact this.2

theorem fillCalls_total (edges : List ℚ) (hlen : 2 ≤ edges.length)
    (calls : List (List (Option ℚ)))
    (hnn : ∀ b ∈ calls, ∀ s ∈ b, s ≠ none) :
    ∀ c : CellState, c.counts.length = edges.length - 1 →
    (fillCalls edges c calls).total = c.total + (calls.map List.length).sum ∧
    (fillCalls edges c calls).counts.length = edges.length - 1 := by
  induction calls with
  | nil => intro c hc; exact ⟨by simp [fillCalls], by simpa [fillCalls] using hc⟩
  | cons b rest ih =>
    intro c hc
    have hb := fillBatch_invariant edges hlen b
      (hnn b (List.mem_cons_self _ _)) c hc
    have hrest : ∀ b' ∈ rest, ∀ s ∈ b', s ≠ none :=
      fun b' hb' => hnn b' (List.mem_cons_of_mem _ hb')
    have := ih hrest (fillBatch edges c b) hb.2
    refine ⟨?_, this.2⟩
    show (fillCalls edges (fillBatch edges c b) rest).total = _
    rw [this.1, hb.1]
    simp
    ring

end HistFill

/-- C1: for every histogram (at least two bin edges) and every sequence of
fill calls whose sample batches contain no NaN values, after the calls the
sum of counts plus underflow plus overflow for a filled cell equals the
total number of samples supplied to that cell across all the calls: fill
accumulates into the fresh all-zero cell and never resets. -/
theorem C1_fill_conserves_samples (edges : List ℚ) (hlen : 2 ≤ edges.length)
    (calls : List (List (Option ℚ)))
    (hnn : ∀ b ∈ calls, ∀ s ∈ b, s ≠ none) :
    (HistFill.fillCalls edges (HistFill.emptyCell (edges.length - 1)) calls).total
      = (calls.map List.length).sum := by
  have h := HistFill.fillCalls_total edges hlen calls hnn
    (HistFill.emptyCell (edges.length - 1)) (by simp [HistFill.emptyCell])
  rw [h.1]
  simp [HistFill.emptyCell, HistFill.CellState.total]

/-- Witness for C1: three samples over edges [0, 1, 2] — one in a bin, one
underflow, one overflow, across two fill calls — give total 3. -/
theorem C1_fill_conserves_samples_witness :
    (HistFill.fillCalls [0, 1, 2] (HistFill.emptyCell 2)
      [[some (1/2), some (-1)], [some 5]]).total = 3 := by
  have h := C1_fill_conserves_samples [0, 1, 2] (by decide)
    [[some (1/2), some (-1)], [some 5]] (by decide)
  simpa using h

namespace HistView

/-!
### `__getitem__` and numpy view semantics

`Histogram1D.__getitem__` (lines 61-70) builds a fresh histogram and then
rebinds its `data`, `underflow`, `overflow` to `np.squeeze(self.data[item])`
etc.  numpy basic slicing and `np.squeeze` return views sharing the owner's
buffer, so the embedding keeps buffers in an explicit store and an array is
a (buffer id, flat offset, length) descriptor.  The grid here is the
rank-one cell grid (shape = (rows, n_bins)) that an integer selector
addresses; the selected region of `data` is then the contiguous flat block
of row `i`.
-/

/-- A view into a buffer of the store: buffer id, flat start offset,
number of elements. -/
structure ArrayView where
  buf : ℕ
  start : ℕ
  len : ℕ
  deriving DecidableEq, Repr

/-- The heap of numpy buffers. -/
abbrev Store := List (List ℕ)

/-- Reading a view element-by-element (out-of-range reads default to 0;
well-formed views never exercise the default). -/
def readView (s : Store) (v : ArrayView) : List ℕ :=
  (List.range v.len).map (fun k => (s.getD v.buf []).getD (v.start + k) 0)

/-- `ndarray.fill(0)` on a view: zero the positions `[a, a + len)` of the
underlying buffer, leaving the rest of the buffer unchanged. -/
def zeroRegion (l : List ℕ) (a len : ℕ) : List ℕ :=
  (List.range l.length).map
    (fun k => if a ≤ k ∧ k < a + len then 0 else l.getD k 0)

/-- Store update performed by `view.fill(0)`. -/
def fillZero (s : Store) (v : ArrayView) : Store :=
  s.set v.buf (zeroRegion (s.getD v.buf []) v.start v.len)

/-- A `Histogram1D` over a rank-one cell grid: `rows` cells of `nBins`
bins; the three arrays are views into store buffers. -/
structure HistRef where
  rows : ℕ
  nBins : ℕ
  dataRef : ArrayView
  underRef : ArrayView
  overRef : ArrayView
  deriving DecidableEq, Repr

/-- `Histogram1D.__init__` (lines 30-45): allocates three fresh all-zero
buffers (counts of shape rows × nBins flattened row-major, underflow and
overflow of shape rows). -/
def mkHist (s : Store) (rows nBins : ℕ) : Store × HistRef :=
  (s ++ [List.replicate (rows * nBins) 0, List.replicate rows 0,
         List.replicate rows 0],
   { rows := rows, nBins := nBins,
     dataRef := { buf := s.length, start := 0, len := rows * nBins },
     underRef := { buf := s.length + 1, start := 0, len := rows },
     overRef := { buf := s.length + 2, start := 0, len := rows } })

/-- `Histogram1D.__getitem__` (lines 61-70) with an integer selector `i`
against the rank-one grid: `_convert_item` yields
`(slice(i, i+1, 1), slice(None))`, a fresh histogram is constructed
(line 65), and then its arrays are rebound to
`np.squeeze(self.data[item])`, `np.squeeze(self.underflow[item[:-1]])`,
`np.squeeze(self.overflow[item[:-1]])` (lines 66-68) — views into the
owner's buffers, not copies. -/
def getitemInt (s : Store) (h : HistRef) (i : ℕ) : Store × HistRef :=
  let alloc := mkHist s 1 h.nBins
  (alloc.1,
   { alloc.2 with
     dataRef := { buf := h.dataRef.buf,
                  start := h.dataRef.start + i * h.nBins, len := h.nBins },
     underRef := { buf := h.underRef.buf,
                   start := h.underRef.start + i, len := 1 },
     overRef := { buf := h.overRef.buf,
                  start := h.overRef.start + i, len := 1 } })

/-- `Histogram1D.reset` (lines 136-140): `data.fill(0)`,
`underflow.fill(0)`, `overflow.fill(0)`. -/
def reset (s : Store) (h : HistRef) : Store :=
  fillZero (fillZero (fillZero s h.dataRef) h.underRef) h.overRef

/-- The owner's full count array, as seen through its data view. -/
def readData (s : Store) (h : HistRef) : List ℕ :=
  readView s h.dataRef

/-- The owner's count row `j` (the counts of cell `j`). -/
def readRow (s : Store) (h : HistRef) (j : ℕ) : List ℕ :=
  readView s { buf := h.dataRef.buf, start := h.dataRef.start + j * h.nBins,
               len := h.nBins }

end HistView

namespace HistView

theorem getD_append_left (l l' : List ℕ) (i d : ℕ) (h : i < l.length) :
    (l ++ l').getD i d = l.getD i d := by
  rw [List.getD_eq_getElem?_getD, List.getElem?_append_left h,
    ← List.getD_eq_getElem?_getD]

theorem getD_append_left' (s s' : Store) (b : ℕ) (hb : b < s.length) :
    (s ++ s').getD b [] = s.getD b [] := by
  rw [List.getD_eq_getElem?_getD, List.getElem?_append_left hb,
    ← List.getD_eq_getElem?_getD]

theorem getD_set_self (s : Store) (b : ℕ) (l : List ℕ) (hb : b < s.length) :
    (s.set b l).getD b [] = l := by
  rw [List.getD_eq_getElem?_getD, List.getElem?_set_self]
  · rfl
  · exact hb

theorem getD_set_ne (s : Store) (b b' : ℕ) (l : List ℕ) (h : b' ≠ b) :
    (s.set b l).getD b' [] = s.getD b' [] := by
  rw [List.getD_eq_getElem?_getD, List.getElem?_set_ne (fun hh => h hh.symm),
    ← List.getD_eq_getElem?_getD]

theorem getD_range_map (f : ℕ → ℕ) (m k : ℕ) :
    ((List.range m).map f).getD k 0 = if k < m then f k else 0 := by
  by_cases h : k < m
  · rw [List.getD_eq_getElem?_getD, List.getElem?_map, List.getElem?_range h]
    simp [h]
  · rw [List.getD_eq_default]
    · simp [h]
    · simpa using not_lt.mp h

theorem getD_zeroRegion (l : List ℕ) (a len k : ℕ) :
    (zeroRegion l a len).getD k 0 =
      if a ≤ k ∧ k < a + len ∧ k < l.length then 0 else l.getD k 0 := by
  unfold zeroRegion
  rw [getD_range_map]
  by_cases hk : k < l.length
  · by_cases hr : a ≤ k ∧ k < a + len
    · simp [hk, hr.1, hr.2]
    · rw [if_pos hk, if_neg hr, if_neg (fun hc => hr ⟨hc.1, hc.2.1⟩)]
  · rw [if_neg hk, if_neg (fun hc => hk hc.2.2),
      List.getD_eq_default _ _ (not_lt.mp hk)]

/-- `fill(0)` through a view only touches that view's buffer. -/
theorem readView_fillZero_ne (s : Store) (v w : ArrayView) (h : w.buf ≠ v.buf) :
    readView (fillZero s v) w = readView s w := by
  unfold readView fillZero
  rw [getD_set_ne s v.buf w.buf _ h]

/-- Pointwise content of the zeroed buffer. -/
theorem getD_fillZero_buf (s : Store) (v : ArrayView) (hb : v.buf < s.length)
    (k : ℕ) :
    ((fillZero s v).getD v.buf []).getD k 0 =
      if v.start ≤ k ∧ k < v.start + v.len ∧ k < (s.getD v.buf []).length
      then 0 else (s.getD v.buf []).getD k 0 := by
  unfold fillZero
  rw [getD_set_self _ _ _ hb, getD_zeroRegion]

end HistView

namespace HistView

/-- Reading through a view of the data buffer after `reset` of a histogram
whose underflow/overflow live in other buffers: only the data region of the
reset histogram is zeroed. -/
theorem readView_reset_sub (s1 : Store) (g : HistRef) (w : ArrayView)
    (hwu : w.buf ≠ g.underRef.buf) (hwo : w.buf ≠ g.overRef.buf)
    (hwd : w.buf = g.dataRef.buf) (hb : g.dataRef.buf < s1.length) :
    readView (reset s1 g) w = (List.range w.len).map (fun k =>
      if g.dataRef.start ≤ w.start + k ∧
         w.start + k < g.dataRef.start + g.dataRef.len ∧
         w.start + k < (s1.getD g.dataRef.buf []).length
      then 0 else (s1.getD g.dataRef.buf []).getD (w.start + k) 0) := by
  unfold reset
  rw [readView_fillZero_ne _ _ _ hwo, readView_fillZero_ne _ _ _ hwu]
  unfold readView
  rw [hwd]
  exact List.map_congr_left (fun k _ => getD_fillZero_buf s1 g.dataRef hb _)

end HistView

/-- Counterexample to C2 as stated: for the two-cell grid histogram `h`
with counts buffer [1, 2, 3, 4] (cells (1,2) and (3,4)), underflow [5, 6]
and overflow [7, 8], taking the sub-histogram `h[0]` and resetting it
changes `h`'s own counts (to [0, 0, 3, 4]): the selection aliases the
owner instead of copying it. -/
theorem C2_counterexample_getitem_aliases :
    HistView.readData
      (HistView.reset
        (HistView.getitemInt [[1, 2, 3, 4], [5, 6], [7, 8]]
          { rows := 2, nBins := 2,
            dataRef := { buf := 0, start := 0, len := 4 },
            underRef := { buf := 1, start := 0, len := 2 },
            overRef := { buf := 2, start := 0, len := 2 } } 0).1
        (HistView.getitemInt [[1, 2, 3, 4], [5, 6], [7, 8]]
          { rows := 2, nBins := 2,
            dataRef := { buf := 0, start := 0, len := 4 },
            underRef := { buf := 1, start := 0, len := 2 },
            overRef := { buf := 2, start := 0, len := 2 } } 0).2)
      { rows := 2, nBins := 2,
        dataRef := { buf := 0, start := 0, len := 4 },
        underRef := { buf := 1, start := 0, len := 2 },
        overRef := { buf := 2, start := 0, len := 2 } }
    ≠ HistView.readData [[1, 2, 3, 4], [5, 6], [7, 8]]
      { rows := 2, nBins := 2,
        dataRef := { buf := 0, start := 0, len := 4 },
        underRef := { buf := 1, start := 0, len := 2 },
        overRef := { buf := 2, start := 0, len := 2 } } := by
  decide

/-- C2 amended: `h[i]` returns a histogram whose counts, underflow, and
overflow are numpy views aliasing `h`'s own buffers (not copies); resetting
the returned histogram zeroes exactly the selected count row of `h` and
leaves the other rows unchanged. -/
theorem C2_amended_getitem_returns_views (s : HistView.Store)
    (h : HistView.HistRef) (i : ℕ) (hi : i < h.rows)
    (hdb : h.dataRef.buf < s.length)
    (hdu : h.dataRef.buf ≠ h.underRef.buf)
    (hdo : h.dataRef.buf ≠ h.overRef.buf)
    (hrange : h.dataRef.start + h.rows * h.nBins ≤
      (s.getD h.dataRef.buf []).length) :
    ((HistView.getitemInt s h i).2.dataRef.buf = h.dataRef.buf ∧
     (HistView.getitemInt s h i).2.underRef.buf = h.underRef.buf ∧
     (HistView.getitemInt s h i).2.overRef.buf = h.overRef.buf) ∧
    HistView.readRow (HistView.reset (HistView.getitemInt s h i).1
      (HistView.getitemInt s h i).2) h i = List.replicate h.nBins 0 ∧
    ∀ j, j ≠ i →
      HistView.readRow (HistView.reset (HistView.getitemInt s h i).1
        (HistView.getitemInt s h i).2) h j = HistView.readRow s h j := by
  have hGd : (HistView.getitemInt s h i).2.dataRef =
      ⟨h.dataRef.buf, h.dataRef.start + i * h.nBins, h.nBins⟩ := rfl
  have hGu : (HistView.getitemInt s h i).2.underRef =
      ⟨h.underRef.buf, h.underRef.start + i, 1⟩ := rfl
  have hGo : (HistView.getitemInt s h i).2.overRef =
      ⟨h.overRef.buf, h.overRef.start + i, 1⟩ := rfl
  have hS1 : (HistView.getitemInt s h i).1 =
      s ++ [List.replicate (1 * h.nBins) 0, List.replicate 1 0,
            List.replicate 1 0] := rfl
  have hlen1 : h.dataRef.buf < (HistView.getitemInt s h i).1.length := by
    rw [hS1, List.length_append]
    omega
  have hbufeq : ((HistView.getitemInt s h i).1.getD h.dataRef.buf []) =
      s.getD h.dataRef.buf [] := by
    rw [hS1]
    exact HistView.getD_append_left' s _ _ hdb
  have hrow : ∀ j : ℕ,
      HistView.readRow (HistView.reset (HistView.getitemInt s h i).1
        (HistView.getitemInt s h i).2) h j =
      (List.range h.nBins).map (fun k =>
        if h.dataRef.start + i * h.nBins ≤ h.dataRef.start + j * h.nBins + k ∧
           h.dataRef.start + j * h.nBins + k <
             h.dataRef.start + i * h.nBins + h.nBins ∧
           h.dataRef.start + j * h.nBins + k <
             (s.getD h.dataRef.buf []).length
        then 0
        else (s.getD h.dataRef.buf []).getD
          (h.dataRef.start + j * h.nBins + k) 0) := by
    intro j
    unfold HistView.readRow
    rw [HistView.readView_reset_sub _ _ _
      (by rw [hGu]; exact hdu) (by rw [hGo]; exact hdo) (by rw [hGd]) 
      (by rw [hGd]; exact hlen1)]
    rw [hGd]
    simp only [hbufeq]
  refine ⟨⟨rfl, rfl, rfl⟩, ?_, ?_⟩
  · rw [hrow i]
    rw [List.eq_replicate_iff]
    refine ⟨by simp, ?_⟩
    intro x hx
    obtain ⟨k, hk, hxe⟩ := List.mem_map.mp hx
    have hk' : k < h.nBins := List.mem_range.mp hk
    rw [← hxe]
    rw [if_pos]
    refine ⟨by omega, by omega, ?_⟩
    have hmul : (i + 1) * h.nBins ≤ h.rows * h.nBins :=
      Nat.mul_le_mul_right _ (by omega)
    have hmul' : (i + 1) * h.nBins = i * h.nBins + h.nBins := by ring
    omega
  · intro j hj
    rw [hrow j]
    unfold HistView.readRow HistView.readView
    refine List.map_congr_left ?_
    intro k hk
    have hk' : k < h.nBins := List.mem_range.mp hk
    rw [if_neg]
    rintro ⟨h1, h2, _⟩
    rcases Nat.lt_or_ge j i with hji | hji
    · have hmul : (j + 1) * h.nBins ≤ i * h.nBins :=
        Nat.mul_le_mul_right _ (by omega)
      have hmul' : (j + 1) * h.nBins = j * h.nBins + h.nBins := by ring
      omega
    · have hij : i < j := lt_of_le_of_ne hji (fun e => hj e.symm)
      have hmul : (i + 1) * h.nBins ≤ j * h.nBins :=
        Nat.mul_le_mul_right _ (by omega)
      have hmul' : (i + 1) * h.nBins = i * h.nBins + h.nBins := by ring
      omega

/-- Witness for C2's amended theorem at the concrete two-row histogram of
the counterexample, selecting row 1. -/
theorem C2_amended_getitem_returns_views_witness :
    HistView.readRow
      (HistView.reset
        (HistView.getitemInt [[1, 2, 3, 4], [5, 6], [7, 8]]
          { rows := 2, nBins := 2,
            dataRef := { buf := 0, start := 0, len := 4 },
            underRef := { buf := 1, start := 0, len := 2 },
            overRef := { buf := 2, start := 0, len := 2 } } 1).1
        (HistView.getitemInt [[1, 2, 3, 4], [5, 6], [7, 8]]
          { rows := 2, nBins := 2,
            dataRef := { buf := 0, start := 0, len := 4 },
            underRef := { buf := 1, start := 0, len := 2 },
            overRef := { buf := 2, start := 0, len := 2 } } 1).2)
      { rows := 2, nBins := 2,
        dataRef := { buf := 0, start := 0, len := 4 },
        underRef := { buf := 1, start := 0, len := 2 },
        overRef := { buf := 2, start := 0, len := 2 } } 1
      = List.replicate 2 0 :=
  (C2_amended_getitem_returns_views [[1, 2, 3, 4], [5, 6], [7, 8]]
    { rows := 2, nBins := 2,
      dataRef := { buf := 0, start := 0, len := 4 },
      underRef := { buf := 1, start := 0, len := 2 },
      overRef := { buf := 2, start := 0, len := 2 } } 1
    (by decide) (by decide) (by decide) (by decide) (by decide)).2.1

namespace Resolver

/-!
### Index Resolver: `_convert_item` (lines 427-483)

`_convert_item(item, shape)` first normalizes a bare integer into a
one-slice tuple, then validates each component against `shape`, then
builds the canonical per-axis selection `indices` together with the
accumulated `data_shape`, and finally returns `(indices, data_shape[:-1])`.
-/

/-- The selector handed to `__getitem__`: either a bare Python int or a
tuple of components. -/
inductive PyIndex where
  | int (i : Int)
  | tup (l : List SelComp)
  deriving DecidableEq, Repr

/-- A resolved slice as produced by the build loop (all fields as in the
Python `slice` object). -/
structure RSlice where
  start : Option Int
  stop : Option Int
  step : Option Int
  deriving DecidableEq, Repr

/-- `slice(None, None, None)`: take the whole axis. -/
def fullSlice : RSlice := ⟨none, none, none⟩

/-- The `raise IndexError` at lines 455-456: its message interpolates
`shape[i]`, so the shape lookup happens inside the raise and a selector
axis past the end of `shape` turns it into the tuple IndexError. -/
def raiseIndex (c : SelComp) (i : ℕ) (shape : List ℕ) : Except PyErr Unit :=
  match shape.get? i with
  | none => .error .tupleIndex
  | some d => .error (.indexConstraint c i d)

/-- Validation of one component at axis `i` (lines 437-456), with the
`shape[i]` lookups placed exactly where Python evaluates them.  A slice
whose `start` or `step` is `None` is skipped (lines 439-441) without
touching `shape[i]`; for a slice with `start` and `step` given, line 443's
`(index.start >= 0) and (index.stop <= shape[i])` short-circuits: a
negative start never evaluates the right conjunct and raises directly
(the raise message reads `shape[i]`), while a non-negative start evaluates
`shape[i]` and then compares with `stop` — a TypeError when `stop` is
`None`, the bound `stop <= shape[i]` otherwise.  An integer likewise
short-circuits `(index >= 0) and (index < shape[i])`.  `None` components
are skipped. -/
def validate1 (c : SelComp) (i : ℕ) (shape : List ℕ) : Except PyErr Unit :=
  match c with
  | .slice start stop step =>
    match start, step with
    | none, _ => .ok ()
    | some _, none => .ok ()
    | some a, some _ =>
      if a < 0 then raiseIndex c i shape
      else
        match shape.get? i with
        | none => .error .tupleIndex
        | some d =>
          match stop with
          | none => .error .typeErr
          | some b =>
            if b ≤ (d : Int) then .ok ()
            else .error (.indexConstraint c i d)
  | .int v =>
    if v < 0 then raiseIndex c i shape
    else
      match shape.get? i with
      | none => .error .tupleIndex
      | some d =>
        if v < (d : Int) then .ok ()
        else .error (.indexConstraint c i d)
  | .noneComp => .ok ()

/-- The validation loop `for i, index in enumerate(item)` (line 435),
carrying the running axis number; skipped components never read
`shape[i]`, so a selector longer than `shape` only errors when a
non-skipped component reaches the lookup. -/
def validateFrom (shape : List ℕ) : List SelComp → ℕ → Except PyErr Unit
  | [], _ => .ok ()
  | c :: rest, i =>
    match validate1 c i shape with
    | .error e => .error e
    | .ok _ => validateFrom shape rest (i + 1)

/-- Per-axis contribution of the build loop `for i in range(len(shape))`
(lines 458-480): the canonical slice for axis `i` plus that axis's
contribution to `data_shape` (empty for a collapsed or explicitly bounded
axis, the axis size for a whole-axis or `None` or implicit trailing
selection). -/
def resolveAxis (item : List SelComp) (shape : List ℕ) (i : ℕ) :
    RSlice × List ℕ :=
  if hi : i < item.length then
    match item.get ⟨i, hi⟩ with
    | .int v => (⟨some v, some (v + 1), some 1⟩, [])
    | .slice start stop step =>
      if start = none ∧ stop = none then (fullSlice, [shape.getD i 0])
      else (⟨start, stop, step⟩, [])
    | .noneComp => (fullSlice, [shape.getD i 0])
  else (fullSlice, [shape.getD i 0])

/-- The canonical selection `indices`: one resolved slice per axis of
`shape`. -/
def buildIndices (item : List SelComp) (shape : List ℕ) : List RSlice :=
  (List.range shape.length).map (fun i => (resolveAxis item shape i).1)

/-- The accumulated `data_shape` before the final `[:-1]` trim. -/
def buildShape (item : List SelComp) (shape : List ℕ) : List ℕ :=
  ((List.range shape.length).map (fun i => (resolveAxis item shape i).2)).flatten

/-- `_convert_item(item, shape)`: a bare int `v` becomes
`(slice(v, v+1, 1),)` (lines 432-433), validation runs first, and the
result is `(indices, data_shape[:-1])` (line 483). -/
def convert_item (item : PyIndex) (shape : List ℕ) :
    Except PyErr (List RSlice × List ℕ) :=
  let comps := match item with
    | .int v => [SelComp.slice (some v) (some (v + 1)) (some 1)]
    | .tup l => l
  match validateFrom shape comps 0 with
  | .error e => .error e
  | .ok _ => .ok (buildIndices comps shape, (buildShape comps shape).dropLast)

/-- A numpy slice bound: negative values count from the end, then the
bound is clamped to `[0, d]`. -/
def npBound (d : ℕ) (i : Int) : ℕ :=
  (max 0 (min (if i < 0 then i + d else i) (d : Int))).toNat

/-- Number of elements numpy selects on an axis of size `d` for a slice
with positive (or defaulted) step; the histogram code never produces a
negative step, for which this model returns 0. -/
def rsliceLen (d : ℕ) (s : RSlice) : ℕ :=
  let st := s.step.getD 1
  if st ≤ 0 then 0
  else
    let a := match s.start with | none => 0 | some v => npBound d v
    let b := match s.stop with | none => d | some v => npBound d v
    (b - a + (st.toNat - 1)) / st.toNat

/-- Shape of `arr[indices]` for the canonical per-axis selection. -/
def selectedShape (shape : List ℕ) (sels : List RSlice) : List ℕ :=
  List.zipWith rsliceLen shape sels

/-- `np.squeeze`: drop every axis of size 1. -/
def squeezeShape (l : List ℕ) : List ℕ :=
  l.filter (fun d => d ≠ 1)

/-- The shape of the array `np.squeeze(self.data[item])` that
`__getitem__` (line 66) hands back for a given selector. -/
def getitemShape (item : PyIndex) (shape : List ℕ) : Except PyErr (List ℕ) :=
  match convert_item item shape with
  | .error e => .error e
  | .ok r => .ok (squeezeShape (selectedShape shape r.1))

end Resolver

namespace Resolver

/-- An axis past the end of the selector resolves to the whole-axis slice
and contributes its full size. -/
theorem resolveAxis_trailing (item : List SelComp) (shape : List ℕ) (i : ℕ)
    (h1 : item.length ≤ i) :
    resolveAxis item shape i = (fullSlice, [shape.getD i 0]) := by
  unfold resolveAxis
  rw [dif_neg (by omega)]

/-- An integer component resolves to the one-element slice and contributes
nothing to the output shape. -/
theorem resolveAxis_int (item : List SelComp) (shape : List ℕ) (i : ℕ)
    (v : Int) (h : item.get? i = some (.int v)) :
    resolveAxis item shape i = (⟨some v, some (v + 1), some 1⟩, []) := by
  obtain ⟨hi, hg⟩ := List.get?_eq_some.mp h
  unfold resolveAxis
  rw [dif_pos hi, hg]

theorem buildIndices_get? (item : List SelComp) (shape : List ℕ) (i : ℕ)
    (h : i < shape.length) :
    (buildIndices item shape).get? i = some (resolveAxis item shape i).1 := by
  unfold buildIndices
  rw [List.get?_map, List.get?_range h]
  rfl

end Resolver

namespace Resolver

end Resolver

/-- C3: resolving selector (1,) against shape (3, 4) yields the selection
(slice(1, 2, 1), slice(None)) and the squeezed output array shape (4,);
in general an integer component collapses its axis (contributing nothing
to the output shape) and every axis beyond the end of the selector is an
implicit whole-axis selection contributing its full size. -/
theorem C3_int_collapses_and_trailing_axes_full :
    (Resolver.convert_item (.tup [.int 1]) [3, 4] =
        .ok ([⟨some 1, some 2, some 1⟩, Resolver.fullSlice], []) ∧
      Resolver.getitemShape (.tup [.int 1]) [3, 4] = .ok [4]) ∧
    (∀ (item : List SelComp) (shape : List ℕ) (i : ℕ),
      item.length ≤ i → i < shape.length →
      (Resolver.buildIndices item shape).get? i = some Resolver.fullSlice ∧
      (Resolver.resolveAxis item shape i).2 = [shape.getD i 0]) ∧
    (∀ (item : List SelComp) (shape : List ℕ) (i : ℕ) (v : Int),
      item.get? i = some (.int v) →
      (Resolver.resolveAxis item shape i).2 = []) := by
  refine ⟨⟨rfl, rfl⟩, ?_, ?_⟩
  · intro item shape i h1 h2
    constructor
    · rw [Resolver.buildIndices_get? item shape i h2,
        Resolver.resolveAxis_trailing item shape i h1]
    · rw [Resolver.resolveAxis_trailing item shape i h1]
  · intro item shape i v h
    rw [Resolver.resolveAxis_int item shape i v h]

/-- Witness for C3's general conjuncts: against shape (3, 4), the trailing
axis 1 of selector (0,) resolves to the full slice contributing size 4,
and the integer axis 0 contributes nothing. -/
theorem C3_int_collapses_and_trailing_axes_full_witness :
    ((Resolver.buildIndices [SelComp.int 0] [3, 4]).get? 1 =
        some Resolver.fullSlice ∧
      (Resolver.resolveAxis [SelComp.int 0] [3, 4] 1).2 = [4]) ∧
    (Resolver.resolveAxis [SelComp.int 0] [3, 4] 0).2 = [] :=
  ⟨C3_int_collapses_and_trailing_axes_full.2.1 [SelComp.int 0] [3, 4] 1
      (by decide) (by decide),
    C3_int_collapses_and_trailing_axes_full.2.2 [SelComp.int 0] [3, 4] 0 0
      (by decide)⟩

namespace HistStats

/-!
### Statistics engine (lines 142-258)

The statistics operate per cell on the count vector and the bin edges.
numpy's distinguished non-values are modelled explicitly: `nan` (0.0/0.0
and the `np.nan` fills), `masked` (the `np.ma.masked` result of reducing a
fully masked row), and the two infinities from division by zero.
-/

/-- A numpy floating-point statistic result. -/
inductive StatVal where
  | nan
  | masked
  | inf
  | ninf
  | val (q : ℚ)
  deriving DecidableEq, Repr

/-- The cell grid as the statistics see it: one count row per cell
(`self.data`), plus the sorted bin edges (`self.bins`). -/
structure HistG where
  cells : List (List ℕ)
  edges : List ℚ
  deriving DecidableEq, Repr

/-- `Histogram1D.is_empty` (lines 248-258): `np.sum(self.data)` over the
whole grid compared with 0. -/
def isEmptyG (h : HistG) : Bool :=
  (h.cells.map List.sum).sum = 0

/-- The left bin edges of the occupied bins of one cell: lines 213-215
broadcast `self.bins[:-1]` over the cell and mask the entries with
`self.data <= 0`. -/
def occupiedEdges (edges : List ℚ) (counts : List ℕ) : List ℚ :=
  ((List.zip edges.dropLast counts).filter (fun p => 0 < p.2)).map Prod.fst

/-- `np.min` of the masked row: `masked` when every bin is masked out,
otherwise the smallest unmasked left edge. -/
def maskedMin (edges : List ℚ) (counts : List ℕ) : StatVal :=
  match occupiedEdges edges counts with
  | [] => .masked
  | x :: xs => .val (xs.foldl min x)

/-- `np.max` of the masked row. -/
def maskedMax (edges : List ℚ) (counts : List ℕ) : StatVal :=
  match occupiedEdges edges counts with
  | [] => .masked
  | x :: xs => .val (xs.foldl max x)

/-- `Histogram1D.min` (lines 205-218): NaN for every cell when the whole
histogram is empty, otherwise the masked minimum per cell. -/
def minG (h : HistG) : List StatVal :=
  if isEmptyG h then h.cells.map (fun _ => .nan)
  else h.cells.map (fun c => maskedMin h.edges c)

/-- `Histogram1D.max` (lines 220-233). -/
def maxG (h : HistG) : List StatVal :=
  if isEmptyG h then h.cells.map (fun _ => .nan)
  else h.cells.map (fun c => maskedMax h.edges c)

/-- `np.argmax` over one cell's counts: the first index attaining the
maximum count. -/
def argmaxN (l : List ℕ) : ℕ :=
  l.findIdx (fun x => x = l.foldl max 0)

/-- `Histogram1D.mode` (lines 192-203): NaN for every cell when the whole
histogram is empty (line 194 checks `is_empty`, i.e. the global sum);
otherwise `self.bins[np.argmax(...)]` per cell. -/
def modeG (h : HistG) : List StatVal :=
  if isEmptyG h then h.cells.map (fun _ => .nan)
  else h.cells.map (fun c => .val (h.edges.getD (argmaxN c) 0))

/-- `self.bin_centers` (line 42): `np.diff(bins) / 2 + bins[:-1]`. -/
def binCenters (edges : List ℚ) : List ℚ :=
  (List.zip edges (edges.drop 1)).map (fun p => (p.2 - p.1) / 2 + p.1)

/-- The position method of `mean`/`std` (lines 148-162): left edge, right
edge, or bin center. -/
inductive Method where
  | left
  | right
  | mid
  deriving DecidableEq, Repr

/-- The representative positions per bin for a method: `bins[:-1]`,
`bins[1:]`, or `bin_centers`. -/
def positions (edges : List ℚ) : Method → List ℚ
  | .left => edges.dropLast
  | .right => edges.drop 1
  | .mid => binCenters edges

/-- numpy floating-point division: 0/0 is NaN, x/0 for x ≠ 0 is a signed
infinity, and otherwise the exact quotient. -/
def npDiv (a b : ℚ) : StatVal :=
  if b = 0 then (if a = 0 then .nan else if 0 < a then .inf else .ninf)
  else .val (a / b)

/-- `Histogram1D.mean` (lines 146-167) on one cell:
`np.sum(data * bins, axis=-1) / np.sum(data, axis=-1)` with the positions
chosen by `method`. -/
def meanH (edges : List ℚ) (counts : List ℕ) (m : Method) : StatVal :=
  npDiv ((List.zipWith (fun (c : ℕ) (p : ℚ) => (c : ℚ) * p) counts (positions edges m)).sum)
    ((counts.sum : ℚ))

end HistStats

namespace HistStats

theorem getD_eq_get {α : Type} (l : List α) (d : α) (i : ℕ) (h : i < l.length) :
    l.getD i d = l.get ⟨i, h⟩ := by
  rw [List.getD_eq_getElem?_getD, List.getElem?_eq_getElem h]
  rfl

theorem foldl_min_mem (xs : List ℚ) :
    ∀ x, xs.foldl min x = x ∨ xs.foldl min x ∈ xs := by
  induction xs with
  | nil => intro x; left; rfl
  | cons y ys ih =>
    intro x
    simp only [List.foldl_cons]
    rcases ih (min x y) with h | h
    · rcases min_choice x y with hm | hm
      · left; rw [h, hm]
      · right; rw [h, hm]; exact List.mem_cons_self _ _
    · right; exact List.mem_cons_of_mem _ h

theorem foldl_min_le (xs : List ℚ) :
    ∀ x, xs.foldl min x ≤ x ∧ ∀ q ∈ xs, xs.foldl min x ≤ q := by
  induction xs with
  | nil => intro x; exact ⟨le_refl x, by simp⟩
  | cons y ys ih =>
    intro x
    simp only [List.foldl_cons]
    obtain ⟨h1, h2⟩ := ih (min x y)
    refine ⟨le_trans h1 (min_le_left x y), ?_⟩
    intro q hq
    rcases List.mem_cons.mp hq with rfl | hq'
    · exact le_trans h1 (min_le_right x q)
    · exact h2 q hq'

theorem foldl_max_mem (xs : List ℚ) :
    ∀ x, xs.foldl max x = x ∨ xs.foldl max x ∈ xs := by
  induction xs with
  | nil => intro x; left; rfl
  | cons y ys ih =>
    intro x
    simp only [List.foldl_cons]
    rcases ih (max x y) with h | h
    · rcases max_choice x y with hm | hm
      · left; rw [h, hm]
      · right; rw [h, hm]; exact List.mem_cons_self _ _
    · right; exact List.mem_cons_of_mem _ h

theorem foldl_max_le (xs : List ℚ) :
    ∀ x, x ≤ xs.foldl max x ∧ ∀ q ∈ xs, q ≤ xs.foldl max x := by
  induction xs with
  | nil => intro x; exact ⟨le_refl x, by simp⟩
  | cons y ys ih =>
    intro x
    simp only [List.foldl_cons]
    obtain ⟨h1, h2⟩ := ih (max x y)
    refine ⟨le_trans (le_max_left x y) h1, ?_⟩
    intro q hq
    rcases List.mem_cons.mp hq with rfl | hq'
    · exact le_trans (le_max_right x q) h1
    · exact h2 q hq'

theorem foldl_max_mem_nat (xs : List ℕ) :
    ∀ x, xs.foldl max x = x ∨ xs.foldl max x ∈ xs := by
  induction xs with
  | nil => intro x; left; rfl
  | cons y ys ih =>
    intro x
    simp only [List.foldl_cons]
    rcases ih (max x y) with h | h
    · rcases max_choice x y with hm | hm
      · left; rw [h, hm]
      · right; rw [h, hm]; exact List.mem_cons_self _ _
    · right; exact List.mem_cons_of_mem _ h

theorem foldl_max_le_nat (xs : List ℕ) :
    ∀ x, x ≤ xs.foldl max x ∧ ∀ q ∈ xs, q ≤ xs.foldl max x := by
  induction xs with
  | nil => intro x; exact ⟨le_refl x, by simp⟩
  | cons y ys ih =>
    intro x
    simp only [List.foldl_cons]
    obtain ⟨h1, h2⟩ := ih (max x y)
    refine ⟨le_trans (le_max_left x y) h1, ?_⟩
    intro q hq
    rcases List.mem_cons.mp hq with rfl | hq'
    · exact le_trans (le_max_right x q) h1
    · exact h2 q hq'

/-- The masked minimum, when it is a value, is the least occupied left
edge. -/
theorem maskedMin_val_spec (edges : List ℚ) (counts : List ℕ) (m : ℚ)
    (h : maskedMin edges counts = .val m) :
    m ∈ occupiedEdges edges counts ∧
      ∀ q ∈ occupiedEdges edges counts, m ≤ q := by
  unfold maskedMin at h
  cases ho : occupiedEdges edges counts with
  | nil => rw [ho] at h; exact absurd h (by simp)
  | cons x xs =>
    rw [ho] at h
    simp only [StatVal.val.injEq] at h
    subst h
    constructor
    · rcases foldl_min_mem xs x with h | h
      · rw [h]; exact List.mem_cons_self _ _
      · exact List.mem_cons_of_mem _ h
    · intro q hq
      obtain ⟨h1, h2⟩ := foldl_min_le xs x
      rcases List.mem_cons.mp hq with rfl | hq'
      · exact h1
      · exact h2 q hq'

/-- The masked maximum, when it is a value, is the greatest occupied left
edge. -/
theorem maskedMax_val_spec (edges : List ℚ) (counts : List ℕ) (m : ℚ)
    (h : maskedMax edges counts = .val m) :
    m ∈ occupiedEdges edges counts ∧
      ∀ q ∈ occupiedEdges edges counts, q ≤ m := by
  unfold maskedMax at h
  cases ho : occupiedEdges edges counts with
  | nil => rw [ho] at h; exact absurd h (by simp)
  | cons x xs =>
    rw [ho] at h
    simp only [StatVal.val.injEq] at h
    subst h
    constructor
    · rcases foldl_max_mem xs x with h | h
      · rw [h]; exact List.mem_cons_self _ _
      · exact List.mem_cons_of_mem _ h
    · intro q hq
      obtain ⟨h1, h2⟩ := foldl_max_le xs x
      rcases List.mem_cons.mp hq with rfl | hq'
      · exact h1
      · exact h2 q hq'

/-- `argmaxN` lands inside a nonempty list and attains the maximum. -/
theorem argmaxN_spec (l : List ℕ) (hl : l ≠ []) :
    argmaxN l < l.length ∧
      ∀ j, j < l.length → l.getD j 0 ≤ l.getD (argmaxN l) 0 := by
  have hmax : ∃ x ∈ l, (fun x => decide (x = l.foldl max 0)) x = true := by
    rcases foldl_max_mem_nat l 0 with h | h
    · obtain ⟨x, xs, rfl⟩ := List.exists_cons_of_ne_nil hl
      have hx : x ≤ (x :: xs).foldl max 0 :=
        (foldl_max_le_nat (x :: xs) 0).2 x (List.mem_cons_self _ _)
      rw [h] at hx
      refine ⟨x, List.mem_cons_self _ _, ?_⟩
      simp only [h]
      simp [Nat.le_zero.mp hx]
    · exact ⟨_, h, by simp⟩
  have hlt : argmaxN l < l.length :=
    List.findIdx_lt_length_of_exists hmax
  refine ⟨hlt, ?_⟩
  have hval : l.getD (argmaxN l) 0 = l.foldl max 0 := by
    have hp := @List.findIdx_getElem _
      (fun x => decide (x = l.foldl max 0)) l hlt
    rw [getD_eq_get l 0 (argmaxN l) hlt]
    simpa [argmaxN] using hp
  intro j hj
  rw [hval]
  exact (foldl_max_le_nat l 0).2 _
    (by rw [getD_eq_get l 0 j hj]; exact List.get_mem l j hj)

end HistStats

/-- Counterexample to C5 as stated: in the two-cell histogram with counts
rows (0,0) and (1,0), the whole grid is not empty, and the selected cell 0
has no occupied bin — `min()`/`max()` reduce a fully masked row, which
numpy returns as the `masked` constant, not NaN. -/
theorem C5_counterexample_empty_cell_masked :
    (HistStats.minG { cells := [[0, 0], [1, 0]], edges := [0, 1, 2] }).get? 0 =
        some HistStats.StatVal.masked ∧
      (HistStats.maxG { cells := [[0, 0], [1, 0]], edges := [0, 1, 2] }).get? 0 =
        some HistStats.StatVal.masked ∧
      HistStats.StatVal.masked ≠ HistStats.StatVal.nan := by
  refine ⟨rfl, rfl, by decide⟩

/-- C5 amended: when the whole histogram is empty, `min()`/`max()` yield
NaN for every cell; otherwise they mask out zero-count bins per cell and,
for a cell with at least one occupied bin, return the least (resp.
greatest) occupied left edge — which for sorted edges is the left edge of
the lowest (resp. highest) occupied bin — while a cell with no occupied
bin yields the numpy masked constant, not NaN. -/
theorem C5_amended_min_max_of_occupied (h : HistStats.HistG) :
    (HistStats.isEmptyG h = true →
      HistStats.minG h = h.cells.map (fun _ => HistStats.StatVal.nan) ∧
      HistStats.maxG h = h.cells.map (fun _ => HistStats.StatVal.nan)) ∧
    (HistStats.isEmptyG h = false →
      ∀ k c, h.cells.get? k = some c →
      (HistStats.occupiedEdges h.edges c = [] →
        (HistStats.minG h).get? k = some HistStats.StatVal.masked ∧
        (HistStats.maxG h).get? k = some HistStats.StatVal.masked) ∧
      (HistStats.occupiedEdges h.edges c ≠ [] →
        (∃ m, (HistStats.minG h).get? k = some (HistStats.StatVal.val m) ∧
          m ∈ HistStats.occupiedEdges h.edges c ∧
          ∀ q ∈ HistStats.occupiedEdges h.edges c, m ≤ q) ∧
        (∃ m, (HistStats.maxG h).get? k = some (HistStats.StatVal.val m) ∧
          m ∈ HistStats.occupiedEdges h.edges c ∧
          ∀ q ∈ HistStats.occupiedEdges h.edges c, q ≤ m))) := by
  constructor
  · intro he
    unfold HistStats.minG HistStats.maxG
    rw [he]
    exact ⟨by simp, by simp⟩
  · intro he k c hc
    have hmin : (HistStats.minG h).get? k =
        some (HistStats.maskedMin h.edges c) := by
      unfold HistStats.minG
      rw [he]
      simp only [Bool.false_eq_true, if_false, List.get?_map, hc]
      rfl
    have hmax : (HistStats.maxG h).get? k =
        some (HistStats.maskedMax h.edges c) := by
      unfold HistStats.maxG
      rw [he]
      simp only [Bool.false_eq_true, if_false, List.get?_map, hc]
      rfl
    constructor
    · intro hocc
      rw [hmin, hmax]
      unfold HistStats.maskedMin HistStats.maskedMax
      rw [hocc]
      exact ⟨rfl, rfl⟩
    · intro hocc
      constructor
      · obtain ⟨x, xs, hoc⟩ := List.exists_cons_of_ne_nil hocc
        have hmv : HistStats.maskedMin h.edges c =
            HistStats.StatVal.val (xs.foldl min x) := by
          unfold HistStats.maskedMin
          rw [hoc]
        obtain ⟨hm1, hm2⟩ := HistStats.maskedMin_val_spec h.edges c _ hmv
        exact ⟨xs.foldl min x, by rw [hmin, hmv], hm1, hm2⟩
      · obtain ⟨x, xs, hoc⟩ := List.exists_cons_of_ne_nil hocc
        have hmv : HistStats.maskedMax h.edges c =
            HistStats.StatVal.val (xs.foldl max x) := by
          unfold HistStats.maskedMax
          rw [hoc]
        obtain ⟨hm1, hm2⟩ := HistStats.maskedMax_val_spec h.edges c _ hmv
        exact ⟨xs.foldl max x, by rw [hmax, hmv], hm1, hm2⟩

/-- Witness for C5's amended theorem: an all-zero one-cell histogram is
globally empty, so both statistics are NaN everywhere. -/
theorem C5_amended_min_max_of_occupied_witness :
    HistStats.minG { cells := [[0]], edges := [0, 1] } =
        [HistStats.StatVal.nan] ∧
      HistStats.maxG { cells := [[0]], edges := [0, 1] } =
        [HistStats.StatVal.nan] :=
  (C5_amended_min_max_of_occupied
    { cells := [[0]], edges := [0, 1] }).1 rfl

/-- C6: `mode()` yields NaN for a selected cell exactly when the whole
histogram is empty (global `sum(counts) == 0`, not just the cell); for a
non-empty histogram every cell gets the left-edge position `bins[argmax]`
of a maximal-count bin of that cell. -/
theorem C6_mode_nan_iff_global_empty (h : HistStats.HistG) (k : ℕ)
    (c : List ℕ) (hc : h.cells.get? k = some c) :
    ((HistStats.modeG h).get? k = some HistStats.StatVal.nan ↔
      HistStats.isEmptyG h = true) ∧
    (HistStats.isEmptyG h = false → c ≠ [] →
      ∃ i, i < c.length ∧
        (∀ j, j < c.length → c.getD j 0 ≤ c.getD i 0) ∧
        (HistStats.modeG h).get? k =
          some (HistStats.StatVal.val (h.edges.getD i 0))) := by
  cases he : HistStats.isEmptyG h with
  | true =>
    have hmode : (HistStats.modeG h).get? k = some HistStats.StatVal.nan := by
      unfold HistStats.modeG
      rw [he]
      simp only [if_true, List.get?_map, hc]
      rfl
    exact ⟨⟨fun _ => rfl, fun _ => hmode⟩,
      fun hfalse => absurd hfalse (by decide)⟩
  | false =>
    have hmode : (HistStats.modeG h).get? k =
        some (HistStats.StatVal.val (h.edges.getD (HistStats.argmaxN c) 0)) := by
      unfold HistStats.modeG
      rw [he]
      simp only [Bool.false_eq_true, if_false, List.get?_map, hc]
      rfl
    constructor
    · rw [hmode]
      constructor
      · intro hcontra
        simp at hcontra
      · intro hcontra
        cases hcontra
    · intro _ hne
      obtain ⟨h1, h2⟩ := HistStats.argmaxN_spec c hne
      exact ⟨HistStats.argmaxN c, h1, h2, hmode⟩

/-- Witness for C6 at a one-cell histogram with counts (0, 2, 1): the
histogram is not empty, and mode resolves to the left edge of bin 1. -/
theorem C6_mode_nan_iff_global_empty_witness :
    ∃ i, i < ([0, 2, 1] : List ℕ).length ∧
      (∀ j, j < ([0, 2, 1] : List ℕ).length →
        ([0, 2, 1] : List ℕ).getD j 0 ≤ ([0, 2, 1] : List ℕ).getD i 0) ∧
      (HistStats.modeG { cells := [[0, 2, 1]], edges := [0, 1, 2, 3] }).get? 0 =
        some (HistStats.StatVal.val (([0, 1, 2, 3] : List ℚ).getD i 0)) :=
  (C6_mode_nan_iff_global_empty
    { cells := [[0, 2, 1]], edges := [0, 1, 2, 3] } 0 [0, 2, 1] rfl).2
    rfl (by decide)

namespace HistStats

theorem sum_zipWith_of_sum_zero (counts : List ℕ) :
    ∀ (pos : List ℚ), counts.sum = 0 →
    (List.zipWith (fun (c : ℕ) (p : ℚ) => (c : ℚ) * p) counts pos).sum = 0 := by
  induction counts with
  | nil => intro pos _; simp
  | cons c cs ih =>
    intro pos h
    cases pos with
    | nil => simp
    | cons q qs =>
      have hc : c = 0 ∧ cs.sum = 0 := by simpa using h
      simp only [List.zipWith_cons_cons, List.sum_cons, hc.1]
      rw [ih qs hc.2]
      simp

theorem sum_zipWith_incNth (pos : List ℚ) :
    ∀ (n i : ℕ), i < n → pos.length = n →
    (List.zipWith (fun (c : ℕ) (p : ℚ) => (c : ℚ) * p)
      (HistFill.incNth (List.replicate n 0) i) pos).sum = pos.getD i 0 := by
  induction pos with
  | nil =>
    intro n i hi hl
    simp at hl
    omega
  | cons q qs ih =>
    intro n i hi hl
    cases n with
    | zero => omega
    | succ m =>
      rw [List.replicate_succ]
      cases i with
      | zero =>
        simp only [HistFill.incNth, List.zipWith_cons_cons, List.sum_cons]
        rw [sum_zipWith_of_sum_zero (List.replicate m 0) qs (by simp)]
        simp
      | succ j =>
        simp only [HistFill.incNth, List.zipWith_cons_cons, List.sum_cons]
        rw [ih m j (by omega) (by simpa using hl)]
        simp [List.getD_cons_succ]

theorem binCenters_length (edges : List ℚ) :
    (binCenters edges).length = edges.length - 1 := by
  simp [binCenters]

end HistStats

/-- C7: for every cell and every position method, `mean` is the
count-weighted average `sum(counts * position) / sum(counts)` with the
position the left edge, right edge, or bin center; a zero-count cell gives
NaN rather than an error; and a histogram holding exactly one sample that
lands in bin `i` has `mean(method='mid')` equal to `bin_centers[i]`. -/
theorem C7_mean_weighted_average (edges : List ℚ) (counts : List ℕ)
    (m : HistStats.Method) :
    (counts.sum = 0 →
      HistStats.meanH edges counts m = HistStats.StatVal.nan) ∧
    (counts.sum ≠ 0 →
      HistStats.meanH edges counts m = HistStats.StatVal.val
        ((List.zipWith (fun (c : ℕ) (p : ℚ) => (c : ℚ) * p) counts
          (HistStats.positions edges m)).sum / (counts.sum : ℚ))) ∧
    (∀ (v : ℚ) (i : ℕ), 2 ≤ edges.length →
      HistFill.binOf edges v = .bin i →
      HistStats.meanH edges
        (HistFill.fillBatch edges
          (HistFill.emptyCell (edges.length - 1)) [some v]).counts .mid =
        HistStats.StatVal.val ((HistStats.binCenters edges).getD i 0)) := by
  refine ⟨?_, ?_, ?_⟩
  · intro hsum
    unfold HistStats.meanH
    rw [HistStats.sum_zipWith_of_sum_zero counts _ hsum, hsum]
    simp [HistStats.npDiv]
  · intro hsum
    unfold HistStats.meanH HistStats.npDiv
    rw [if_neg (by exact_mod_cast hsum)]
  · intro v i hlen hbin
    have hi : i < edges.length - 1 := HistFill.binOf_bin_lt edges v hlen i hbin
    have hcounts : (HistFill.fillBatch edges
        (HistFill.emptyCell (edges.length - 1)) [some v]).counts =
        HistFill.incNth (List.replicate (edges.length - 1) 0) i := by
      unfold HistFill.fillBatch
      simp only [List.foldl_cons, List.foldl_nil]
      simp only [HistFill.fillSample, hbin]
      rfl
    rw [hcounts]
    unfold HistStats.meanH
    have hnum := HistStats.sum_zipWith_incNth (HistStats.positions edges .mid)
      (edges.length - 1) i hi (HistStats.binCenters_length edges)
    rw [hnum]
    have hden : (HistFill.incNth (List.replicate (edges.length - 1) 0) i).sum
        = 1 := by
      rw [HistFill.incNth_sum _ _ (by simpa using hi)]
      simp
    rw [hden]
    unfold HistStats.npDiv
    rw [if_neg (by norm_num)]
    norm_num
    rfl

/-- Witness for C7: one sample of value 1 over edges (0, 2, 4) lands in
bin 0 and `mean(method='mid')` returns the first bin center. -/
theorem C7_mean_weighted_average_witness :
    HistStats.meanH [0, 2, 4]
      (HistFill.fillBatch [0, 2, 4] (HistFill.emptyCell 2) [some 1]).counts
      .mid =
      HistStats.StatVal.val ((HistStats.binCenters [0, 2, 4]).getD 0 0) :=
  (C7_mean_weighted_average [0, 2, 4] [] HistStats.Method.left).2.2 1 0
    (by decide) (by decide)

namespace HistAlg

/-!
### Histogram algebra: `__add__`, `__eq__`, `_is_compatible` (lines 72-111)

Arrays are kept flattened (row-major); the `shape` attribute is the tuple
stored by the constructor.  Counts are numpy uint32, so addition wraps
modulo 2^32.
-/

/-- 2^32, the modulus of numpy uint32 arithmetic. -/
def u32 : ℕ := 4294967296

/-- A `Histogram1D` as the algebra sees it. -/
structure Hist1D where
  shape : List ℕ
  data : List ℕ
  bins : List ℚ
  underflow : List ℕ
  overflow : List ℕ
  deriving DecidableEq, Repr

/-- `np.sort` in the constructor (line 41). -/
def sortEdges (l : List ℚ) : List ℚ :=
  l.mergeSort (fun a b => decide (a ≤ b))

/-- `_is_compatible` (lines 104-111): a shape mismatch raises ValueError,
then `assert (self.bins == other.bins).all()` raises AssertionError on any
edge mismatch. -/
def isCompatible (a b : Hist1D) : Except PyErr Unit :=
  if a.shape ≠ b.shape then .error .valueErr
  else if a.bins ≠ b.bins then .error .assertionErr
  else .ok ()

/-- `__eq__` (lines 84-98): compatibility first (raising on mismatch),
then the conjunction of element-wise equality of `data`, `overflow`,
`underflow` and `bins`. -/
def histEq (a b : Hist1D) : Except PyErr Bool :=
  match isCompatible a b with
  | .error e => .error e
  | .ok _ => .ok (decide (a.data = b.data) && decide (a.overflow = b.overflow)
      && decide (a.underflow = b.underflow) && decide (a.bins = b.bins))

/-- `__add__` (lines 72-82): compatibility first, then a fresh histogram
(whose constructor re-sorts the edges, line 41) with the element-wise
uint32 sums of `data`, `overflow`, `underflow`.  The fresh shape recorded
by the constructor is `self.shape[:-1] + (n_bins,)`. -/
def histAdd (a b : Hist1D) : Except PyErr Hist1D :=
  match isCompatible a b with
  | .error e => .error e
  | .ok _ =>
    .ok { shape := a.shape.dropLast ++ [(sortEdges a.bins).length - 1],
          bins := sortEdges a.bins,
          data := List.zipWith (fun x y => (x + y) % u32) a.data b.data,
          overflow := List.zipWith (fun x y => (x + y) % u32)
            a.overflow b.overflow,
          underflow := List.zipWith (fun x y => (x + y) % u32)
            a.underflow b.underflow }

theorem zipWith_self_eq_map {α β : Type} (f : α → α → β) (l : List α) :
    List.zipWith f l l = l.map (fun x => f x x) := by
  induction l with
  | nil => rfl
  | cons x xs ih => simp [List.zipWith_cons_cons, ih]

end HistAlg

/-- C8: comparing histograms with differing shapes raises ValueError and
with equal shapes but differing bin edges raises AssertionError (never a
false result); compatible histograms compare equal exactly when counts,
underflow, overflow, and bin edges all agree element-wise. -/
theorem C8_eq_raises_on_incompatible (a b : HistAlg.Hist1D) :
    (a.shape ≠ b.shape → HistAlg.histEq a b = .error .valueErr) ∧
    (a.shape = b.shape → a.bins ≠ b.bins →
      HistAlg.histEq a b = .error .assertionErr) ∧
    (a.shape = b.shape → a.bins = b.bins →
      (HistAlg.histEq a b = .ok true ↔
        (a.data = b.data ∧ a.underflow = b.underflow ∧
          a.overflow = b.overflow ∧ a.bins = b.bins))) := by
  refine ⟨?_, ?_, ?_⟩
  · intro hs
    unfold HistAlg.histEq HistAlg.isCompatible
    rw [if_pos hs]
  · intro hs hb
    unfold HistAlg.histEq HistAlg.isCompatible
    rw [if_neg (by simp [hs]), if_pos hb]
  · intro hs hb
    unfold HistAlg.histEq HistAlg.isCompatible
    rw [if_neg (by simp [hs]), if_neg (by simp [hb])]
    constructor
    · intro h
      simp only [Except.ok.injEq, Bool.and_eq_true, decide_eq_true_eq] at h
      exact ⟨h.1.1.1, h.1.2, h.1.1.2, h.2⟩
    · rintro ⟨h1, h2, h3, h4⟩
      simp [h1, h2, h3, h4]

/-- Witness for C8: two single-cell histograms with equal shape and edges
but different counts compare as (ok false), and the iff certifies that
count inequality is why. -/
theorem C8_eq_raises_on_incompatible_witness :
    HistAlg.histEq
        { shape := [2], data := [1, 2], bins := [0, 1, 2],
          underflow := [0], overflow := [0] }
        { shape := [2], data := [1, 3], bins := [0, 1, 2],
          underflow := [0], overflow := [0] } = .ok true ↔
      (([1, 2] : List ℕ) = [1, 3] ∧ ([0] : List ℕ) = [0] ∧
        ([0] : List ℕ) = [0] ∧ ([0, 1, 2] : List ℚ) = [0, 1, 2]) :=
  (C8_eq_raises_on_incompatible
    { shape := [2], data := [1, 2], bins := [0, 1, 2],
      underflow := [0], overflow := [0] }
    { shape := [2], data := [1, 3], bins := [0, 1, 2],
      underflow := [0], overflow := [0] }).2.2 rfl rfl

/-- Counterexample to C9 as stated: numpy uint32 counts wrap modulo 2^32,
so adding a histogram holding a count of 2^31 to itself yields count 0,
not the element-wise natural sum 2^32. -/
theorem C9_counterexample_uint32_wrap :
    (HistAlg.histAdd
        { shape := [1], data := [2147483648], bins := [0, 1],
          underflow := [0], overflow := [0] }
        { shape := [1], data := [2147483648], bins := [0, 1],
          underflow := [0], overflow := [0] }).map (fun r => r.data) =
      .ok [0] ∧ (0 : ℕ) ≠ 2147483648 + 2147483648 := by
  exact ⟨rfl, by decide⟩

/-- C9 amended: adding histograms of different shape raises ValueError,
equal shape but different edges raises AssertionError; compatible
histograms (sorted edges) produce a fresh histogram whose counts,
underflow, overflow are the element-wise sums modulo 2^32 (numpy uint32
wrap-around) with the same bin edges, and inputs are untouched; in
particular h + h doubles every count of h whenever all counts are below
2^31. -/
theorem C9_amended_add_sums_mod_u32 (a b : HistAlg.Hist1D) :
    (a.shape ≠ b.shape → HistAlg.histAdd a b = .error .valueErr) ∧
    (a.shape = b.shape → a.bins ≠ b.bins →
      HistAlg.histAdd a b = .error .assertionErr) ∧
    (a.shape = b.shape → a.bins = b.bins →
      List.Sorted (· ≤ ·) a.bins →
      ∃ r, HistAlg.histAdd a b = .ok r ∧
        r.data = List.zipWith (fun x y => (x + y) % HistAlg.u32)
          a.data b.data ∧
        r.underflow = List.zipWith (fun x y => (x + y) % HistAlg.u32)
          a.underflow b.underflow ∧
        r.overflow = List.zipWith (fun x y => (x + y) % HistAlg.u32)
          a.overflow b.overflow ∧
        r.bins = a.bins) ∧
    (List.Sorted (· ≤ ·) a.bins → (∀ x ∈ a.data, 2 * x < HistAlg.u32) →
      ∃ r, HistAlg.histAdd a a = .ok r ∧
        r.data = a.data.map (fun x => 2 * x) ∧ r.bins = a.bins) := by
  have hok : ∀ (c d : HistAlg.Hist1D), c.shape = d.shape → c.bins = d.bins →
      HistAlg.isCompatible c d = .ok () := by
    intro c d hs hb
    unfold HistAlg.isCompatible
    rw [if_neg (by simp [hs]), if_neg (by simp [hb])]
  refine ⟨?_, ?_, ?_, ?_⟩
  · intro hs
    unfold HistAlg.histAdd HistAlg.isCompatible
    rw [if_pos hs]
  · intro hs hb
    unfold HistAlg.histAdd HistAlg.isCompatible
    rw [if_neg (by simp [hs]), if_pos hb]
  · intro hs hb hsorted
    have hadd : HistAlg.histAdd a b = .ok
        { shape := a.shape.dropLast ++ [(HistAlg.sortEdges a.bins).length - 1],
          bins := HistAlg.sortEdges a.bins,
          data := List.zipWith (fun x y => (x + y) % HistAlg.u32)
            a.data b.data,
          overflow := List.zipWith (fun x y => (x + y) % HistAlg.u32)
            a.overflow b.overflow,
          underflow := List.zipWith (fun x y => (x + y) % HistAlg.u32)
            a.underflow b.underflow } := by
      unfold HistAlg.histAdd
      rw [hok a b hs hb]
    exact ⟨_, hadd, rfl, rfl, rfl, List.mergeSort_eq_self hsorted⟩
  · intro hsorted hsmall
    have hadd : HistAlg.histAdd a a = .ok
        { shape := a.shape.dropLast ++ [(HistAlg.sortEdges a.bins).length - 1],
          bins := HistAlg.sortEdges a.bins,
          data := List.zipWith (fun x y => (x + y) % HistAlg.u32)
            a.data a.data,
          overflow := List.zipWith (fun x y => (x + y) % HistAlg.u32)
            a.overflow a.overflow,
          underflow := List.zipWith (fun x y => (x + y) % HistAlg.u32)
            a.underflow a.underflow } := by
      unfold HistAlg.histAdd
      rw [hok a a rfl rfl]
    refine ⟨_, hadd, ?_, List.mergeSort_eq_self hsorted⟩
    show List.zipWith (fun x y => (x + y) % HistAlg.u32) a.data a.data = _
    rw [HistAlg.zipWith_self_eq_map]
    refine List.map_congr_left ?_
    intro x hx
    have := hsmall x hx
    rw [Nat.mod_eq_of_lt (by omega)]
    omega

/-- Witness for C9's amended theorem: doubling a small histogram. -/
theorem C9_amended_add_sums_mod_u32_witness :
    ∃ r, HistAlg.histAdd
        { shape := [2], data := [3, 5], bins := [0, 1, 2],
          underflow := [1], overflow := [2] }
        { shape := [2], data := [3, 5], bins := [0, 1, 2],
          underflow := [1], overflow := [2] } = .ok r ∧
      r.data = ([3, 5] : List ℕ).map (fun x => 2 * x) ∧
      r.bins = [0, 1, 2] :=
  (C9_amended_add_sums_mod_u32
    { shape := [2], data := [3, 5], bins := [0, 1, 2],
      underflow := [1], overflow := [2] }
    { shape := [2], data := [3, 5], bins := [0, 1, 2],
      underflow := [1], overflow := [2] }).2.2.2 (by decide) (by decide)

namespace FillCheck

/-!
### `fill` preconditions (lines 113-132)

`fill(data_points, indices)` asserts, in order: `isinstance(indices, int)
or indices == ()` (line 122), `indices < self.data.shape[0]` when an int
(line 124), and `data_points.shape[:-1] == self.data[indices].shape[:-1]`
(line 125, where numpy itself raises IndexError for an int below
`-shape[0]`).  Only then is the C routine invoked, so a failing assert
precedes any mutation.
-/

/-- The `indices` argument: a tuple of ints (the empty tuple selects the
whole grid), a single int, or a slice. -/
inductive FillSel where
  | intSel (i : Int)
  | tupSel (l : List Int)
  | sliceSel (start stop step : Option Int)
  deriving DecidableEq, Repr

/-- The assertion ladder of `fill`, on the histogram's full data shape
`shape` (cell shape plus bin axis) and the sample batch shape
`batchShape`. -/
def fillCheck (shape : List ℕ) (sel : FillSel) (batchShape : List ℕ) :
    Except PyErr Unit :=
  match sel with
  | .sliceSel _ _ _ => .error .assertionErr
  | .tupSel (_ :: _) => .error .assertionErr
  | .tupSel [] =>
    if batchShape.dropLast = shape.dropLast then .ok ()
    else .error .assertionErr
  | .intSel i =>
    if (shape.getD 0 0 : Int) ≤ i then .error .assertionErr
    else if i < -(shape.getD 0 0 : Int) then .error .numpyIndex
    else if batchShape.dropLast = (shape.drop 1).dropLast then .ok ()
    else .error .assertionErr

end FillCheck

namespace FillCheck

theorem fillCheck_slice (shape bs : List ℕ) (a b c : Option Int) :
    fillCheck shape (.sliceSel a b c) bs = .error .assertionErr := rfl

theorem fillCheck_tupCons (shape bs : List ℕ) (i : Int) (rest : List Int) :
    fillCheck shape (.tupSel (i :: rest)) bs = .error .assertionErr := rfl

theorem fillCheck_tupNil (shape bs : List ℕ) :
    fillCheck shape (.tupSel []) bs =
      if bs.dropLast = shape.dropLast then .ok ()
      else .error .assertionErr := rfl

theorem fillCheck_int (shape bs : List ℕ) (i : Int) :
    fillCheck shape (.intSel i) bs =
      if (shape.getD 0 0 : Int) ≤ i then .error .assertionErr
      else if i < -(shape.getD 0 0 : Int) then .error .numpyIndex
      else if bs.dropLast = (shape.drop 1).dropLast then .ok ()
      else .error .assertionErr := rfl

end FillCheck

/-- Counterexample to C10 as stated: `fill` with the negative integer -1
on a grid with first cell axis 3 passes every assertion (only the upper
bound `indices < shape[0]` is checked), even though -1 is an out-of-range
selection that the claim says must raise. -/
theorem C10_counterexample_negative_index_accepted :
    FillCheck.fillCheck [3, 2] (.intSel (-1)) [5] = .ok () := rfl

/-- C10 amended: `fill` passes its assertions exactly for the empty tuple
with a matching batch shape, or a single integer in `[-shape[0],
shape[0])` with a matching batch shape (only the upper bound is asserted,
so negative integers down to `-shape[0]` are accepted); a slice or a
non-empty tuple of integers — in particular any attempt to address one
cell of a rank-2 grid — raises AssertionError, as do an integer at or
above `shape[0]` and a batch shape mismatch, all before any array is
mutated; an integer below `-shape[0]` raises numpy's IndexError instead. -/
theorem C10_amended_fill_preconditions (shape : List ℕ) (sel : FillCheck.FillSel)
    (batchShape : List ℕ) :
    (FillCheck.fillCheck shape sel batchShape = .ok () ↔
      ((sel = .tupSel [] ∧ batchShape.dropLast = shape.dropLast) ∨
       (∃ i, sel = .intSel i ∧ -(shape.getD 0 0 : Int) ≤ i ∧
         i < (shape.getD 0 0 : Int) ∧
         batchShape.dropLast = (shape.drop 1).dropLast))) ∧
    (∀ i j rest, FillCheck.fillCheck shape (.tupSel (i :: j :: rest))
      batchShape = .error .assertionErr) ∧
    (∀ a b c, FillCheck.fillCheck shape (.sliceSel a b c) batchShape =
      .error .assertionErr) ∧
    (∀ i : Int, (shape.getD 0 0 : Int) ≤ i →
      FillCheck.fillCheck shape (.intSel i) batchShape =
        .error .assertionErr) ∧
    (∀ i : Int, i < -(shape.getD 0 0 : Int) →
      FillCheck.fillCheck shape (.intSel i) batchShape =
        .error .numpyIndex) := by
  refine ⟨?_, fun i j rest => rfl, fun a b c => rfl, ?_, ?_⟩
  · constructor
    · intro h
      cases sel with
      | sliceSel a b c => rw [FillCheck.fillCheck_slice] at h; simp at h
      | tupSel l =>
        cases l with
        | nil =>
          rw [FillCheck.fillCheck_tupNil] at h
          split at h
          · left; exact ⟨rfl, by assumption⟩
          · simp at h
        | cons x xs => rw [FillCheck.fillCheck_tupCons] at h; simp at h
      | intSel i =>
        rw [FillCheck.fillCheck_int] at h
        split at h
        · simp at h
        · split at h
          · simp at h
          · split at h
            · right; exact ⟨i, rfl, by omega, by omega, by assumption⟩
            · simp at h
    · rintro (⟨rfl, hb⟩ | ⟨i, rfl, h1, h2, hb⟩)
      · rw [FillCheck.fillCheck_tupNil, if_pos hb]
      · rw [FillCheck.fillCheck_int, if_neg (by omega), if_neg (by omega),
          if_pos hb]
  · intro i hi
    rw [FillCheck.fillCheck_int, if_pos hi]
  · intro i hi
    rw [FillCheck.fillCheck_int, if_neg (by omega), if_pos hi]

/-- Witness for C10's amended theorem: the empty tuple with a matching
batch shape passes the assertions on a (3, 2)-shaped data array. -/
theorem C10_amended_fill_preconditions_witness :
    FillCheck.fillCheck [3, 2] (.tupSel []) [3, 7] = .ok () :=
  (C10_amended_fill_preconditions [3, 2] (.tupSel []) [3, 7]).1.mpr
    (Or.inl ⟨rfl, rfl⟩)
